/-
Verification of the DexTUI fetch/cache/thumbnail pipeline.

This file gives a shallow embedding of the repository's core logic
(src/fetch.rs, src/ui.rs, src/main.rs, src/models.rs) and proves or
refutes the frozen specification claims about it.

Modelling conventions:
* `u32` / `usize` become `Nat` (none of the verified properties involve
  wrap-around arithmetic).
* Network I/O is modelled by an environment (`Env`) of response oracles;
  the requests a run issues are collected in a trace (`Request`).
* File-system effects are collected in a trace (`FsOp`); the set of
  sprite files currently on disk is the `files` component threaded
  through the backfill loop (writes only ever add files).
* The shared progress structure `FetchState` is updated through an
  explicit event trace (`ProgressEv`); each event corresponds to one
  lock-protected mutation block in the source, applied in program order.
* Fallible steps return explicit result values (`FetchResult`).
-/
import Mathlib

set_option linter.unusedVariables false

/-! ## Data model (src/models.rs) -/

structure Stat where
  name : String
  base : Nat
deriving DecidableEq, Repr

structure Pokemon where
  name : String
  pokedex : Nat
  types : List String
  description : String
  sprite : Option String
  abilities : List String
  height : Nat
  weight : Nat
  base_experience : Nat
  stats : List Stat
deriving DecidableEq, Repr

/-! ## Network / filesystem environment (src/fetch.rs) -/

/-- The fields extracted from a decoded per-record JSON payload
(`p_json` in `fetch_and_cache`); absent fields already defaulted the way
the source defaults them (`unwrap_or(0)` / `unwrap_or_else(|| vec![])`). -/
structure PokeInfo where
  id : Nat
  sprite_url : Option String
  types : List String
  abilities : List String
  height : Nat
  weight : Nat
  base_experience : Nat
  stats : List Stat
deriving DecidableEq, Repr

/-- Outcome of one per-record request `client.get(poke_url).send()` plus
its body decoding `.json::<serde_json::Value>()`. -/
inductive PokeResp where
  /-- the send itself failed (`p_res.is_err()`) -/
  | sendErr
  /-- send succeeded but the body was not valid JSON -/
  | decodeErr
  /-- send and decode succeeded, yielding the extracted fields -/
  | ok (info : PokeInfo)
deriving DecidableEq, Repr

/-- Outcome of the name-enumeration request. `entries` holds, for each
element of the `results` array, its `name` field if present. -/
inductive ListResp where
  | sendErr
  | decodeErr
  /-- decoded, but the body has no `results` array -/
  | noResults
  | ok (entries : List (Option String))
deriving DecidableEq, Repr

/-- State of `data/pokemon.json` at the start of the run:
`std::fs::read_to_string` failing, `serde_json::from_str` failing,
or a parsed record list. -/
inductive CacheFile where
  | missing
  | unparsable
  | records (v : List Pokemon)
deriving DecidableEq, Repr

/-- The run environment: cache-file state, the set of `data/sprites/<id>.png`
files already on disk (by id), and the network oracles.  `speciesResp name`
is the first English flavor text of the species payload when the species
request and its decoding succeed and such an entry exists, else `none`. -/
structure Env where
  cache : CacheFile
  files : List Nat
  listResp : ListResp
  pokeResp : String → PokeResp
  speciesResp : String → Option String
  spriteOk : String → Bool

/-- Filesystem effects performed by a run, in program order.  A cache write
carries the record list it serializes (the byte encoding itself is
irrelevant to every claim). -/
inductive FsOp where
  | writeCache (path : String) (records : List Pokemon)
  | writeSprite (path : String)
  | createDirAll (path : String)
  | rename (src : String) (dst : String)
deriving DecidableEq, Repr

def FsOp.isRename : FsOp → Bool
  | .rename _ _ => true
  | _ => false

/-- Network requests issued by a run, in program order. -/
inductive Request where
  | list (limit : Nat)
  | poke (name : String)
  | species (name : String)
  | sprite (url : String)
deriving DecidableEq, Repr

/-! ## Progress state (`FetchState` in src/fetch.rs) -/

structure FetchState where
  in_progress : Bool
  fetched : Nat
  total : Nat
deriving DecidableEq, Repr

/-- One lock-protected mutation block on the shared `FetchState`. -/
inductive ProgressEv where
  /-- `in_progress = true; fetched = 0; total = t` (start of either path) -/
  | start (t : Nat)
  /-- `fetched = n` -/
  | setFetched (n : Nat)
  /-- `in_progress = false` (end of the backfill path) -/
  | finish
  /-- `in_progress = false; fetched = n; total = n` (end of the full path) -/
  | finishFull (n : Nat)
deriving DecidableEq, Repr

def applyEv (st : FetchState) : ProgressEv → FetchState
  | .start t => ⟨true, 0, t⟩
  | .setFetched n => ⟨st.in_progress, n, st.total⟩
  | .finish => ⟨false, st.fetched, st.total⟩
  | .finishFull n => ⟨false, n, n⟩

/-- The `FetchState` created in `main` before any fetch runs. -/
def initFetchState : FetchState := ⟨false, 0, 0⟩

/-- Final state of the shared `FetchState` after a run's event trace. -/
def runEvs (evs : List ProgressEv) : FetchState :=
  evs.foldl applyEv initFetchState

/-- All states the shared `FetchState` passes through, starting from `st`. -/
def statesFrom (st : FetchState) : List ProgressEv → List FetchState
  | [] => [st]
  | e :: es => st :: statesFrom (applyEv st e) es

/-- The sequence of values taken by `FetchState.fetched` over a run. -/
def fetchedSeq (evs : List ProgressEv) : List Nat :=
  (statesFrom initFetchState evs).map (·.fetched)

/-! ## Shared small helpers of src/fetch.rs -/

def cachePath : String := "data/pokemon.json"

def spritePath (id : Nat) : String :=
  "data/sprites/" ++ toString id ++ ".png"

/-- `ft.replace('\n', " ").replace('\u{c}', " ")` -/
def normalizeFlavor (s : String) : String :=
  (s.replace "\n" " ").replace "\x0C" " "

/-- Description chosen for `name` in the full-fetch path: the normalized
first English flavor text when available, else the fixed fallback. -/
def descFor (env : Env) (name : String) : String :=
  match env.speciesResp name with
  | some ft => normalizeFlavor ft
  | none => "No description available."

/-- The `Pokemon` pushed by the full-fetch path for a successfully decoded
name (`pokemons.push(Pokemon { .. })`, src/fetch.rs lines 246-257).
Note `sprite` is set from the payload whether or not the image download
later succeeds. -/
def mkPokemon (name desc : String) (info : PokeInfo) : Pokemon :=
  { name := name
    pokedex := info.id
    types := info.types
    description := desc
    sprite := info.sprite_url
    abilities := info.abilities
    height := info.height
    weight := info.weight
    base_experience := info.base_experience
    stats := info.stats }

/-! ## Completeness predicate (src/fetch.rs lines 30-38) -/

/-- The condition of the backfill `if` deciding that a record needs
re-fetching, clause for clause:
`p.sprite.is_none() || !Path::new(&sprite_path).exists() ||
 p.abilities.is_empty() || p.stats.is_empty() ||
 p.height == 0 || p.weight == 0 || p.base_experience == 0`. -/
def isIncomplete (files : List Nat) (p : Pokemon) : Bool :=
  p.sprite.isNone || !(files.contains p.pokedex) || p.abilities.isEmpty ||
    p.stats.isEmpty || p.height == 0 || p.weight == 0 || p.base_experience == 0

/-- A record is complete iff the backfill condition does not fire on it. -/
def completeness (files : List Nat) (p : Pokemon) : Bool :=
  !(isIncomplete files p)

/-- The completeness-failure conditions exactly as the claim lists them:
missing sprite file, empty trait list, empty attributes, or zero
size/mass/base score — with no clause about `sprite_ref` being unset.
(Stated from the claim's words, for comparison with `isIncomplete`.) -/
def claimIncomplete (files : List Nat) (p : Pokemon) : Bool :=
  !(files.contains p.pokedex) || p.abilities.isEmpty ||
    p.stats.isEmpty || p.height == 0 || p.weight == 0 || p.base_experience == 0

/-! ## Backfill path (src/fetch.rs lines 19-127) -/

/-- Processing of one cached record by the backfill loop body.
Returns the (possibly rewritten) record, the updated set of on-disk
sprite files, and the filesystem/network effects of this iteration. -/
def backfillStep (env : Env) (files : List Nat) (p : Pokemon) :
    Pokemon × List Nat × List FsOp × List Request :=
  if isIncomplete files p then
    match env.pokeResp p.name with
    | .sendErr => (p, files, [], [Request.poke p.name])
    | .decodeErr => (p, files, [], [Request.poke p.name])
    | .ok info =>
      let spriteDone :
          Option String × List Nat × List FsOp × List Request :=
        match info.sprite_url with
        | some url =>
          if env.spriteOk url then
            (some url, p.pokedex :: files,
             [FsOp.createDirAll "data/sprites", FsOp.writeSprite (spritePath p.pokedex)],
             [Request.sprite url])
          else (p.sprite, files, [], [Request.sprite url])
        | none => (p.sprite, files, [], [])
      let p' : Pokemon :=
        { p with
            sprite := spriteDone.1
            abilities := info.abilities
            height := info.height
            weight := info.weight
            base_experience := info.base_experience
            stats := info.stats }
      (p', spriteDone.2.1, spriteDone.2.2.1,
       Request.poke p.name :: spriteDone.2.2.2)
  else (p, files, [], [])

/-- The backfill loop (`for (i, p) in v.iter_mut().enumerate()`), producing
one entry per record: the resulting record, the progress events of that
iteration (`st.fetched = i + 1`), and its filesystem/network effects. -/
def backfillLoop (env : Env) (files : List Nat) (i : Nat) :
    List Pokemon →
      List (Pokemon × List ProgressEv × List FsOp × List Request) × List Nat
  | [] => ([], files)
  | p :: rest =>
    let step := backfillStep env files p
    let restOut := backfillLoop env step.2.1 (i + 1) rest
    ((step.1, [ProgressEv.setFetched (i + 1)], step.2.2.1, step.2.2.2)
        :: restOut.1,
     restOut.2)

/-! ## Outcome of a whole run -/

inductive FetchResult where
  | ok (records : List Pokemon)
  | error
deriving DecidableEq, Repr

structure FetchOutcome where
  result : FetchResult
  evs : List ProgressEv
  fsOps : List FsOp
  reqs : List Request
deriving DecidableEq, Repr

/-- The backfill path of `fetch_and_cache`, taken when the cache parses to
`v` with `v.len() >= limit`: set the progress state, run the loop, write
the cache file in place, clear `in_progress`, return `Ok(v)`. -/
def backfillPath (env : Env) (v : List Pokemon) : FetchOutcome :=
  let items := (backfillLoop env env.files 0 v).1
  let v' := items.map (·.1)
  { result := .ok v'
    evs := ProgressEv.start v.length
      :: ((items.map (·.2.1)).flatten ++ [ProgressEv.finish])
    fsOps := (items.map (·.2.2.1)).flatten ++ [FsOp.writeCache cachePath v']
    reqs := (items.map (·.2.2.2)).flatten }

/-! ## Full-fetch path (src/fetch.rs lines 129-287) -/

/-- The loop over the enumeration entries, carrying the `pokemons`
accumulator.  Entries without a `name` field are skipped silently; a
failed send is logged and `continue`d; a failed body decode propagates
out through `?`, aborting the whole operation. -/
def fullLoop (env : Env) :
    List (Option String) → List Pokemon →
      FetchResult × List ProgressEv × List FsOp × List Request
  | [], acc => (.ok acc, [], [], [])
  | none :: rest, acc => fullLoop env rest acc
  | some name :: rest, acc =>
    match env.pokeResp name with
    | .sendErr =>
      let restOut := fullLoop env rest acc
      (restOut.1, restOut.2.1, restOut.2.2.1,
       Request.poke name :: restOut.2.2.2)
    | .decodeErr => (.error, [], [], [Request.poke name])
    | .ok info =>
      let p := mkPokemon name (descFor env name) info
      let acc' := acc ++ [p]
      let spriteDone : List FsOp × List Request :=
        match info.sprite_url with
        | some url =>
          (if env.spriteOk url then
             [FsOp.createDirAll "data/sprites", FsOp.writeSprite (spritePath info.id)]
           else [],
           [Request.sprite url])
        | none => ([], [])
      let restOut := fullLoop env rest acc'
      (restOut.1,
       ProgressEv.setFetched acc'.length :: restOut.2.1,
       spriteDone.1 ++ restOut.2.2.1,
       Request.poke name :: Request.species name
         :: (spriteDone.2 ++ restOut.2.2.2))

/-- The full-fetch path: set the progress state, issue the enumeration
request, abort on its failure (or a missing `results` array), otherwise
run the loop, write the cache file in place and finalize the progress
state on success. -/
def fullPath (limit : Nat) (env : Env) : FetchOutcome :=
  match env.listResp with
  | .sendErr =>
    ⟨.error, [ProgressEv.start limit], [], [Request.list limit]⟩
  | .decodeErr =>
    ⟨.error, [ProgressEv.start limit], [], [Request.list limit]⟩
  | .noResults =>
    ⟨.error, [ProgressEv.start limit], [], [Request.list limit]⟩
  | .ok entries =>
    let out := fullLoop env entries []
    match out.1 with
    | .ok poks =>
      { result := .ok poks
        evs := ProgressEv.start limit
          :: (out.2.1 ++ [ProgressEv.finishFull poks.length])
        fsOps := out.2.2.1
          ++ [FsOp.createDirAll "data", FsOp.writeCache cachePath poks]
        reqs := Request.list limit :: out.2.2.2 }
    | .error =>
      { result := .error
        evs := ProgressEv.start limit :: out.2.1
        fsOps := out.2.2.1
        reqs := Request.list limit :: out.2.2.2 }

/-- Whether the cache on disk is usable for `limit` records
(`read_to_string` ok, parse ok, `v.len() >= limit`). -/
def cacheUsable (env : Env) (limit : Nat) : Bool :=
  match env.cache with
  | .records v => limit ≤ v.length
  | _ => false

/-- `fetch_and_cache(limit, state)` (src/fetch.rs): backfill path when a
usable cache exists, full-fetch path otherwise. -/
def fetch_and_cache (limit : Nat) (env : Env) : FetchOutcome :=
  match env.cache with
  | .records v =>
    if limit ≤ v.length then backfillPath env v else fullPath limit env
  | _ => fullPath limit env

/-! ## Derived views of a run's outcome -/

/-- The record list returned by a successful run (empty for an error). -/
def FetchResult.recordsOf : FetchResult → List Pokemon
  | .ok l => l
  | .error => []

/-- Names present in the enumeration entries (`entry.get("name")`). -/
def namesOf (entries : List (Option String)) : List String :=
  entries.filterMap id

/-- Length of the enumeration delivered by the list endpoint (0 when the
enumeration request fails). -/
def listLen (env : Env) : Nat :=
  match env.listResp with
  | .ok entries => entries.length
  | _ => 0

/-- The records the full-fetch loop appends: one per enumeration entry
whose name is present and whose per-record request and decode succeed. -/
def fullResults (env : Env) (entries : List (Option String)) : List Pokemon :=
  entries.filterMap fun e =>
    match e with
    | none => none
    | some name =>
      match env.pokeResp name with
      | .ok info => some (mkPokemon name (descFor env name) info)
      | _ => none

/-- No enumeration entry produces a per-record body-decoding failure. -/
def noDecodeErr (env : Env) (entries : List (Option String)) : Prop :=
  ∀ n ∈ namesOf entries, env.pokeResp n ≠ PokeResp.decodeErr

/-! ## Thumbnail cache (src/ui.rs, `App::get_sprite_pixels`) -/

/-- Decoded image data.  Decoding and Lanczos resampling are opaque to the
claims, so an image is an abstract byte list and the image operations are
oracles of the thumbnail environment. -/
abbrev Img := List Nat

/-- In-memory cached thumbnail (`SpriteThumb` in src/ui.rs): RGB pixels in
row-major order. -/
structure SpriteThumb where
  w : Nat
  h : Nat
  pixels : List Nat
deriving DecidableEq, Repr

/-- Oracles for the image operations used by `get_sprite_pixels`:
`image::open` on `data/sprites/<id>.png`, Lanczos3 `resize`, the RGB-byte
extraction loop, the RGBA buffer rebuild, and the row extraction loop on
a resized image. -/
structure ThumbEnv where
  openImage : Nat → Option Img
  resize : Img → Nat → Nat → Img
  rgbaToRgbBytes : Img → List Nat
  rgbToRgba : Nat → Nat → List Nat → Img
  imgToRows : Img → List (List (Nat × Nat × Nat))

/-- The canonical 48x48 entry inserted on first access for an id
(`THUMB_W = THUMB_H = 48`). -/
def canonicalThumb (env : ThumbEnv) (img : Img) : SpriteThumb :=
  ⟨48, 48, env.rgbaToRgbBytes (env.resize img 48 48)⟩

/-- The exact-match serve loop: rows of `(r, g, b)` triples read at
`row_start + x * 3` with `row_start = y * w * 3`. -/
def rowsFromPixels (pixels : List Nat) (w h : Nat) :
    List (List (Nat × Nat × Nat)) :=
  (List.range h).map fun y =>
    (List.range w).map fun x =>
      let idx := (y * w + x) * 3
      (pixels.getD idx 0, pixels.getD (idx + 1) 0, pixels.getD (idx + 2) 0)

/-- Serving a request from a cached thumbnail: direct row extraction on an
exact size match, otherwise an in-memory resample of the cached buffer. -/
def serveThumb (env : ThumbEnv) (t : SpriteThumb) (w h : Nat) :
    List (List (Nat × Nat × Nat)) :=
  if t.w = w ∧ t.h = h then rowsFromPixels t.pixels w h
  else env.imgToRows (env.resize (env.rgbToRgba t.w t.h t.pixels) w h)

/-- `App::get_sprite_pixels(id, w, h)`: returns the pixel rows, the updated
cache (an association list, most recent insertion first), and the number
of disk decodes (`image::open` calls) this call performed. -/
def get_sprite_pixels (env : ThumbEnv) (cache : List (Nat × SpriteThumb))
    (id w h : Nat) :
    Option (List (List (Nat × Nat × Nat))) × List (Nat × SpriteThumb) × Nat :=
  match List.lookup id cache with
  | some t => (some (serveThumb env t w h), cache, 0)
  | none =>
    match env.openImage id with
    | none => (none, cache, 1)
    | some img =>
      let t := canonicalThumb env img
      (some (serveThumb env t w h), (id, t) :: cache, 1)

/-- A sequence of `get_sprite_pixels` calls for one id with varying
requested sizes; returns per-call `(result, decode count)` pairs and the
final cache. -/
def runCalls (env : ThumbEnv) (id : Nat) (cache : List (Nat × SpriteThumb)) :
    List (Nat × Nat) →
      List (Option (List (List (Nat × Nat × Nat))) × Nat)
        × List (Nat × SpriteThumb)
  | [] => ([], cache)
  | (w, h) :: rest =>
    let out := get_sprite_pixels env cache id w h
    let restOut := runCalls env id out.2.1 rest
    ((out.1, out.2.2) :: restOut.1, restOut.2)

/-! ## List navigation and filtering (src/ui.rs, `App`) -/

/-- `pat` occurs at the start of the character list. -/
def startsWithChars : List Char → List Char → Bool
  | _, [] => true
  | [], _ :: _ => false
  | a :: as, b :: bs => a == b && startsWithChars as bs

/-- `pat` occurs contiguously somewhere in the character list. -/
def containsChars : List Char → List Char → Bool
  | [], pat => pat.isEmpty
  | a :: as, pat => startsWithChars (a :: as) pat || containsChars as pat

/-- `haystack.contains(&needle)` on strings. -/
def strContains (haystack needle : String) : Bool :=
  containsChars haystack.toList needle.toList

/-- The state of `App` relevant to list navigation and filtering. -/
structure App where
  all_pokemons : List Pokemon
  visible : List Nat
  selected_visible : Nat
  search_mode : Bool
  search_query : String
  show_sprites : Bool
  show_help : Bool
deriving Repr

/-- `App::new`. -/
def App.new (all : List Pokemon) : App :=
  { all_pokemons := all
    visible := List.range all.length
    selected_visible := 0
    search_mode := false
    search_query := ""
    show_sprites := true
    show_help := false }

/-- `App::next`. -/
def App.next (a : App) : App :=
  if a.visible.isEmpty then a
  else { a with selected_visible := (a.selected_visible + 1) % a.visible.length }

/-- `App::previous`. -/
def App.previous (a : App) : App :=
  if a.visible.isEmpty then a
  else if a.selected_visible == 0 then
    { a with selected_visible := a.visible.length - 1 }
  else { a with selected_visible := a.selected_visible - 1 }

/-- The filter predicate of `App::apply_filter`: name or any type contains
the lowered query. -/
def matchesQuery (q : String) (p : Pokemon) : Bool :=
  strContains p.name.toLower q || p.types.any fun t => strContains t.toLower q

/-- `App::apply_filter`. -/
def App.apply_filter (a : App) : App :=
  let q := a.search_query.toLower
  let vis :=
    if q.isEmpty then List.range a.all_pokemons.length
    else a.all_pokemons.enum.filterMap fun ip =>
      if matchesQuery q ip.2 then some ip.1 else none
  let sel :=
    if vis.isEmpty then 0
    else if vis.length ≤ a.selected_visible then vis.length - 1
    else a.selected_visible
  { a with visible := vis, selected_visible := sel }

/-- The selection invariant used by `draw_ui`'s indexing
`app.visible[app.selected_visible]` (guarded by `!app.visible.is_empty()`). -/
def App.inv (a : App) : Prop :=
  a.visible ≠ [] → a.selected_visible < a.visible.length

/-! ## Interactive event loop (src/main.rs) -/

inductive Key where
  | char (c : Char)
  | enter
  | esc
  | up
  | down
  | backspace
  | f1
deriving DecidableEq, Repr

/-- An observable step of the interactive mode: a key event handled by the
loop, or the completion of a previously spawned background fetch task. -/
inductive UiEvent where
  | key (k : Key)
  | fetchFinished
deriving DecidableEq, Repr

/-- The loop state relevant to fetch spawning: `inFlight` counts
`fetch_and_cache` tasks spawned (`tokio::spawn`) and not yet finished. -/
structure LoopState where
  search_mode : Bool
  search_query : String
  show_help : Bool
  inFlight : Nat
deriving DecidableEq, Repr

/-- The key handling of the interactive loop (src/main.rs lines 126-171),
plus completion of a background fetch.  The `'r'` branch spawns a new
background `fetch_and_cache` unconditionally. -/
def uiStep (s : LoopState) : UiEvent → LoopState
  | .fetchFinished => { s with inFlight := s.inFlight - 1 }
  | .key k =>
    if s.search_mode then
      match k with
      | .enter => { s with search_mode := false }
      | .esc => { s with search_mode := false }
      | .backspace => { s with search_query := s.search_query.dropRight 1 }
      | .char c => { s with search_query := s.search_query.push c }
      | _ => s
    else
      match k with
      | .char c =>
        if c = 'q' then s
        else if c = 'h' then { s with show_help := !s.show_help }
        else if c = '/' then { s with search_mode := true, search_query := "" }
        else if c = 'r' then { s with inFlight := s.inFlight + 1 }
        else s
      | .f1 => { s with show_help := !s.show_help }
      | _ => s

/-- Loop state right after startup: `main` has already spawned the initial
background fetch (src/main.rs line 55) before entering the loop. -/
def initLoopState : LoopState := ⟨false, "", false, 1⟩

/-- The loop state after a sequence of events. -/
def runUi (evs : List UiEvent) : LoopState :=
  evs.foldl uiStep initLoopState

/-! ## Concrete records and environments used to instantiate the claims -/

/-- A record all of whose completeness clauses hold (its sprite file, id 5,
is listed in the environments that use it). -/
def pokeComplete : Pokemon :=
  { name := "bulbasaur"
    pokedex := 5
    types := ["grass"]
    description := "A seed."
    sprite := some "http://img/5.png"
    abilities := ["overgrow"]
    height := 7
    weight := 69
    base_experience := 64
    stats := [⟨"hp", 45⟩] }

/-- An incomplete record (zero height). -/
def pokePartial : Pokemon :=
  { pokeComplete with name := "weedle", pokedex := 13, height := 0 }

/-- A record whose only failing completeness clause is the unset sprite
reference. -/
def pokeNoSpriteRef : Pokemon :=
  { pokeComplete with sprite := none }

/-- Payload for a successfully decoded record request. -/
def infoBeedrill : PokeInfo :=
  { id := 15
    sprite_url := none
    types := ["bug", "poison"]
    abilities := ["swarm"]
    height := 10
    weight := 295
    base_experience := 178
    stats := [⟨"hp", 65⟩] }

/-- Baseline environment: no cache, no sprite files, every request fails. -/
def envBase : Env :=
  { cache := .missing
    files := []
    listResp := .sendErr
    pokeResp := fun _ => .sendErr
    speciesResp := fun _ => none
    spriteOk := fun _ => false }

/-- A usable one-record cache whose record is complete. -/
def envCacheComplete : Env :=
  { envBase with cache := .records [pokeComplete], files := [5] }

/-- A usable one-record cache whose record is incomplete. -/
def envCachePartial : Env :=
  { envBase with cache := .records [pokePartial], files := [13] }

/-- No cache; the enumeration succeeds with one name whose record request
succeeds but whose body fails to decode. -/
def envDecodeFail : Env :=
  { envBase with
      listResp := .ok [some "abra"]
      pokeResp := fun n => if n = "abra" then .decodeErr else .sendErr }

/-- No cache; the enumeration succeeds with two names, the first name's
request fails to send, the second succeeds. -/
def envOneFailing : Env :=
  { envBase with
      listResp := .ok [some "abra", some "beedrill"]
      pokeResp := fun n => if n = "beedrill" then .ok infoBeedrill else .sendErr }

/-- No cache; the enumeration request itself fails. -/
def envListFail : Env := envBase

/-- No cache; the enumeration succeeds with an empty result list. -/
def envEmptyList : Env := { envBase with listResp := .ok [] }

/-- Concrete thumbnail environment: id 5 decodes; the image operations are
arbitrary but fixed computable stand-ins. -/
def thumbEnvW : ThumbEnv :=
  { openImage := fun id => if id = 5 then some [9, 9, 9] else none
    resize := fun img w h => w :: h :: img
    rgbaToRgbBytes := fun img => img
    rgbToRgba := fun _ _ px => px
    imgToRows := fun img => [img.map fun b => (b, b, b)] }

/-- A concrete `App` over a one-record dataset, as built by `App::new`. -/
def appW : App := App.new [pokeComplete]

/-- `[setFetched (c+1), setFetched (c+2), ..., setFetched (c+m)]`: the shape
of the progress updates emitted by either fetch loop. -/
def consecEvs (c : Nat) : Nat → List ProgressEv
  | 0 => []
  | m + 1 => ProgressEv.setFetched (c + 1) :: consecEvs (c + 1) m

/-- `files₁` is contained in `files₂` at the `List.contains` level. -/
def filesSub (files₁ files₂ : List Nat) : Prop :=
  ∀ x, files₁.contains x = true → files₂.contains x = true

/-! ## Helper lemmas: backfill loop -/

theorem backfillLoop_length (env : Env) :
    ∀ (v : List Pokemon) (files : List Nat) (i : Nat),
      ((backfillLoop env files i v).1).length = v.length := by
  intro v
  induction v with
  | nil => intro files i; rfl
  | cons p rest ih =>
    intro files i
    simp [backfillLoop, ih]

theorem backfillLoop_evs (env : Env) :
    ∀ (v : List Pokemon) (files : List Nat) (i : Nat),
      (((backfillLoop env files i v).1).map (·.2.1)).flatten
        = consecEvs i v.length := by
  intro v
  induction v with
  | nil => intro files i; rfl
  | cons p rest ih =>
    intro files i
    simp [backfillLoop, consecEvs, ih]

theorem backfillStep_files_sub (env : Env) (files : List Nat) (p : Pokemon) :
    filesSub files (backfillStep env files p).2.1 := by
  intro x hx
  unfold backfillStep
  split
  · cases h : env.pokeResp p.name with
    | sendErr => simpa [h] using hx
    | decodeErr => simpa [h] using hx
    | ok info =>
      cases hurl : info.sprite_url with
      | none => simpa [h, hurl] using hx
      | some url =>
        by_cases hok : env.spriteOk url = true
        · simp only [h, hurl, hok, if_true, List.contains_cons]
          have : x ∈ files := by simpa using hx
          simp [this]
        · simp at hok
          simpa [h, hurl, hok] using hx
  · exact hx

theorem completeness_mono (files₀ files : List Nat) (p : Pokemon)
    (hsub : filesSub files₀ files) (hc : completeness files₀ p = true) :
    completeness files p = true := by
  have hci : isIncomplete files₀ p = false := by
    simpa [completeness] using hc
  have h₀ : files₀.contains p.pokedex = true := by
    cases hx : files₀.contains p.pokedex with
    | false =>
      unfold isIncomplete at hci
      rw [hx] at hci
      simp at hci
    | true => rfl
  have h₁ : files.contains p.pokedex = true := hsub _ h₀
  have hgoal : isIncomplete files p = false := by
    unfold isIncomplete at hci ⊢
    rw [h₀] at hci
    rw [h₁]
    simpa using hci
  simpa [completeness] using hgoal

theorem backfillStep_complete (env : Env) (files : List Nat) (p : Pokemon)
    (hc : completeness files p = true) :
    backfillStep env files p = (p, files, [], []) := by
  have h : isIncomplete files p = false := by
    simpa [completeness] using hc
  simp [backfillStep, h]

theorem filesSub_refl (files : List Nat) : filesSub files files :=
  fun _ h => h

theorem filesSub_trans {f₁ f₂ f₃ : List Nat}
    (h₁ : filesSub f₁ f₂) (h₂ : filesSub f₂ f₃) : filesSub f₁ f₃ :=
  fun x h => h₂ x (h₁ x h)

/-- A record complete at the start of the backfill pass is returned
unchanged by its loop iteration, with no filesystem effect and no network
request; `files₀` is the file set at the start of the pass, `files` the
(grown) file set when the iteration runs. -/
theorem backfillLoop_complete_untouched (env : Env) :
    ∀ (v : List Pokemon) (files files₀ : List Nat) (i j : Nat)
      (hsub : filesSub files₀ files) (hj : j < v.length)
      (hc : completeness files₀ (v.get ⟨j, hj⟩) = true),
      ((backfillLoop env files i v).1).get? j
        = some (v.get ⟨j, hj⟩, [ProgressEv.setFetched (i + j + 1)], [], []) := by
  intro v
  induction v with
  | nil => intro files files₀ i j hsub hj hc; exact absurd hj (by simp)
  | cons p rest ih =>
    intro files files₀ i j hsub hj hc
    cases j with
    | zero =>
      have hcp : completeness files p = true :=
        completeness_mono files₀ files p hsub (by simpa using hc)
      simp [backfillLoop, backfillStep_complete env files p hcp]
    | succ j' =>
      have hj' : j' < rest.length := by simpa [Nat.succ_lt_succ_iff] using hj
      have hsub' : filesSub files₀ (backfillStep env files p).2.1 :=
        filesSub_trans hsub (backfillStep_files_sub env files p)
      have hc' : completeness files₀ (rest.get ⟨j', hj'⟩) = true := by
        simpa using hc
      have hrec := ih (backfillStep env files p).2.1 files₀ (i + 1) j' hsub' hj' hc'
      rw [show i + (j' + 1) + 1 = i + 1 + j' + 1 by omega]
      simp only [backfillLoop, List.get?_cons_succ, List.get_cons_succ]
      exact hrec

/-! ## Helper lemmas: full-fetch loop -/

theorem namesOf_cons_some (name : String) (rest : List (Option String)) :
    namesOf (some name :: rest) = name :: namesOf rest := by
  simp [namesOf]

theorem noDecodeErr_cons (env : Env) (e : Option String)
    (rest : List (Option String)) (h : noDecodeErr env (e :: rest)) :
    noDecodeErr env rest := by
  intro n hn
  apply h
  cases e with
  | none => simpa [namesOf] using hn
  | some name => simp [namesOf] at hn ⊢; exact Or.inr (by simpa [namesOf] using hn)

/-- When no entry's body decoding fails, the full-fetch loop succeeds and
appends exactly the records of the entries whose name is present and whose
request succeeds, in enumeration order. -/
theorem fullLoop_ok (env : Env) :
    ∀ (entries : List (Option String)) (acc : List Pokemon)
      (hnd : noDecodeErr env entries),
      (fullLoop env entries acc).1 = .ok (acc ++ fullResults env entries) := by
  intro entries
  induction entries with
  | nil => intro acc hnd; simp [fullLoop, fullResults]
  | cons e rest ih =>
    intro acc hnd
    have hnd' : noDecodeErr env rest := noDecodeErr_cons env e rest hnd
    cases e with
    | none =>
      simp only [fullLoop]
      rw [ih acc hnd']
      simp [fullResults]
    | some name =>
      cases h : env.pokeResp name with
      | sendErr =>
        simp only [fullLoop, h]
        rw [ih acc hnd']
        simp [fullResults, h]
      | decodeErr =>
        exact absurd h (hnd name (by simp [namesOf_cons_some]))
      | ok info =>
        simp only [fullLoop, h]
        rw [ih _ hnd']
        simp [fullResults, h]

/-- Shape of the progress updates of the full-fetch loop: one `setFetched`
per appended record, with consecutive values continuing the accumulator's
length, no matter where (or whether) the loop aborts. -/
theorem fullLoop_evs_shape (env : Env) :
    ∀ (entries : List (Option String)) (acc : List Pokemon),
      ∃ m, m ≤ entries.length
        ∧ (fullLoop env entries acc).2.1 = consecEvs acc.length m
        ∧ (∀ poks, (fullLoop env entries acc).1 = .ok poks
            → poks.length = acc.length + m) := by
  intro entries
  induction entries with
  | nil =>
    intro acc
    refine ⟨0, by simp, rfl, ?_⟩
    intro poks hok
    simp only [fullLoop] at hok
    cases hok
    simp [consecEvs]
  | cons e rest ih =>
    intro acc
    cases e with
    | none =>
      obtain ⟨m, hm, hevs, hlen⟩ := ih acc
      exact ⟨m, by simpa using Nat.le_succ_of_le hm, hevs, hlen⟩
    | some name =>
      cases h : env.pokeResp name with
      | sendErr =>
        obtain ⟨m, hm, hevs, hlen⟩ := ih acc
        refine ⟨m, by simpa using Nat.le_succ_of_le hm, ?_, ?_⟩
        · simpa [fullLoop, h] using hevs
        · intro poks hok
          apply hlen
          simpa [fullLoop, h] using hok
      | decodeErr =>
        refine ⟨0, by simp, by simp [fullLoop, h, consecEvs], ?_⟩
        intro poks hok
        simp [fullLoop, h] at hok
      | ok info =>
        obtain ⟨m, hm, hevs, hlen⟩ :=
          ih (acc ++ [mkPokemon name (descFor env name) info])
        refine ⟨m + 1, by simpa using Nat.succ_le_succ hm, ?_, ?_⟩
        · simp only [fullLoop, h]
          rw [hevs]
          simp [consecEvs]
        · intro poks hok
          have := hlen poks (by simpa [fullLoop, h] using hok)
          simp at this
          omega

/-! ## Helper lemmas: progress state traces -/

theorem statesFrom_head :
    ∀ (evs : List ProgressEv) (st : FetchState),
      ∃ tl, statesFrom st evs = st :: tl := by
  intro evs st
  cases evs with
  | nil => exact ⟨[], rfl⟩
  | cons e es => exact ⟨statesFrom (applyEv st e) es, rfl⟩

theorem foldl_consecEvs :
    ∀ (m c : Nat) (st : FetchState),
      (consecEvs c m).foldl applyEv st
        = ⟨st.in_progress, if m = 0 then st.fetched else c + m, st.total⟩ := by
  intro m
  induction m with
  | zero => intro c st; simp [consecEvs]
  | succ m ih =>
    intro c st
    simp only [consecEvs, List.foldl_cons, applyEv]
    rw [ih (c + 1)]
    by_cases hm : m = 0
    · simp [hm]
    · simp only [hm, if_false, Nat.succ_ne_zero, if_neg]
      congr 1
      omega

theorem chain_consec_finish :
    ∀ (m c : Nat) (st : FetchState), st.fetched ≤ c + 1 →
      List.Chain' (· ≤ ·)
        ((statesFrom st (consecEvs c m ++ [ProgressEv.finish])).map (·.fetched)) := by
  intro m
  induction m with
  | zero =>
    intro c st h
    simp [consecEvs, statesFrom, applyEv, List.chain'_cons]
  | succ m ih =>
    intro c st h
    simp only [consecEvs, List.cons_append, statesFrom, List.map_cons, List.append_eq]
    obtain ⟨tl, htl⟩ :=
      statesFrom_head (consecEvs (c + 1) m ++ [ProgressEv.finish])
        (applyEv st (ProgressEv.setFetched (c + 1)))
    rw [htl, List.map_cons, List.chain'_cons]
    constructor
    · simpa [applyEv] using h
    · rw [← List.map_cons, ← htl]
      exact ih (c + 1) (applyEv st (ProgressEv.setFetched (c + 1))) (by simp [applyEv])

theorem chain_consec_finishFull :
    ∀ (m c n : Nat) (st : FetchState),
      st.fetched ≤ c + 1 → st.fetched ≤ n → c + m ≤ n →
      List.Chain' (· ≤ ·)
        ((statesFrom st (consecEvs c m ++ [ProgressEv.finishFull n])).map (·.fetched)) := by
  intro m
  induction m with
  | zero =>
    intro c n st h1 h2 h3
    simp [consecEvs, statesFrom, applyEv, List.chain'_cons, h2]
  | succ m ih =>
    intro c n st h1 h2 h3
    simp only [consecEvs, List.cons_append, statesFrom, List.map_cons, List.append_eq]
    obtain ⟨tl, htl⟩ :=
      statesFrom_head (consecEvs (c + 1) m ++ [ProgressEv.finishFull n])
        (applyEv st (ProgressEv.setFetched (c + 1)))
    rw [htl, List.map_cons, List.chain'_cons]
    constructor
    · simpa [applyEv] using h1
    · rw [← List.map_cons, ← htl]
      exact ih (c + 1) n (applyEv st (ProgressEv.setFetched (c + 1)))
        (by simp [applyEv]) (by simp [applyEv]; omega) (by omega)

theorem bound_consec_finish :
    ∀ (m c : Nat) (st : FetchState),
      st.fetched ≤ st.total → c + m ≤ st.total →
      ∀ s ∈ statesFrom st (consecEvs c m ++ [ProgressEv.finish]),
        s.fetched ≤ s.total := by
  intro m
  induction m with
  | zero =>
    intro c st h1 h2 s hs
    simp [consecEvs, statesFrom, applyEv] at hs
    rcases hs with hs | hs <;> subst hs
    · exact h1
    · exact h1
  | succ m ih =>
    intro c st h1 h2 s hs
    simp only [consecEvs, List.cons_append, statesFrom, List.mem_cons] at hs
    rcases hs with hs | hs
    · subst hs; exact h1
    · exact ih (c + 1) (applyEv st (ProgressEv.setFetched (c + 1)))
        (by simp [applyEv]; omega) (by simp [applyEv]; omega) s hs

theorem bound_consec_finishFull :
    ∀ (m c n : Nat) (st : FetchState),
      st.fetched ≤ st.total → c + m ≤ st.total →
      ∀ s ∈ statesFrom st (consecEvs c m ++ [ProgressEv.finishFull n]),
        s.fetched ≤ s.total := by
  intro m
  induction m with
  | zero =>
    intro c n st h1 h2 s hs
    simp [consecEvs, statesFrom, applyEv] at hs
    rcases hs with hs | hs <;> subst hs
    · exact h1
    · exact Nat.le_refl n
  | succ m ih =>
    intro c n st h1 h2 s hs
    simp only [consecEvs, List.cons_append, statesFrom, List.mem_cons] at hs
    rcases hs with hs | hs
    · subst hs; exact h1
    · exact ih (c + 1) n (applyEv st (ProgressEv.setFetched (c + 1)))
        (by simp [applyEv]; omega) (by simp [applyEv]; omega) s hs

/-! ## Helper lemmas: path selection and filesystem trace -/

theorem fetch_and_cache_full (limit : Nat) (env : Env)
    (h : cacheUsable env limit = false) :
    fetch_and_cache limit env = fullPath limit env := by
  unfold fetch_and_cache
  unfold cacheUsable at h
  cases hc : env.cache with
  | missing => rfl
  | unparsable => rfl
  | records v =>
    rw [hc] at h
    simp only [decide_eq_false_iff_not] at h
    simp [h]

theorem fetch_and_cache_backfill (limit : Nat) (env : Env) (v : List Pokemon)
    (hc : env.cache = .records v) (hlen : limit ≤ v.length) :
    fetch_and_cache limit env = backfillPath env v := by
  unfold fetch_and_cache
  rw [hc]
  simp [hlen]

theorem backfillStep_fs_no_rename (env : Env) (files : List Nat) (p : Pokemon) :
    ∀ op ∈ (backfillStep env files p).2.2.1, op.isRename = false := by
  intro op hop
  unfold backfillStep at hop
  split at hop
  · cases h : env.pokeResp p.name with
    | sendErr => simp only [h] at hop; simp at hop
    | decodeErr => simp only [h] at hop; simp at hop
    | ok info =>
      simp only [h] at hop
      cases hurl : info.sprite_url with
      | none => simp only [hurl] at hop; simp at hop
      | some url =>
        simp only [hurl] at hop
        by_cases hok : env.spriteOk url = true
        · simp only [hok, if_true] at hop
          simp at hop
          rcases hop with hop | hop <;> subst hop <;> rfl
        · simp only [Bool.not_eq_true] at hok
          simp [hok] at hop
  · simp at hop

theorem backfillLoop_fs_no_rename (env : Env) :
    ∀ (v : List Pokemon) (files : List Nat) (i : Nat),
      ∀ op ∈ (((backfillLoop env files i v).1).map (·.2.2.1)).flatten,
        op.isRename = false := by
  intro v
  induction v with
  | nil => intro files i op hop; simp [backfillLoop] at hop
  | cons p rest ih =>
    intro files i op hop
    simp only [backfillLoop, List.map_cons, List.flatten_cons, List.mem_append] at hop
    rcases hop with hop | hop
    · exact backfillStep_fs_no_rename env files p op hop
    · exact ih _ _ op hop

theorem fullLoop_fs_no_rename (env : Env) :
    ∀ (entries : List (Option String)) (acc : List Pokemon),
      ∀ op ∈ (fullLoop env entries acc).2.2.1, op.isRename = false := by
  intro entries
  induction entries with
  | nil => intro acc op hop; simp [fullLoop] at hop
  | cons e rest ih =>
    intro acc op hop
    cases e with
    | none => exact ih acc op hop
    | some name =>
      cases h : env.pokeResp name with
      | sendErr =>
        simp only [fullLoop, h] at hop
        exact ih acc op hop
      | decodeErr => simp [fullLoop, h] at hop
      | ok info =>
        simp only [fullLoop, h, List.mem_append] at hop
        rcases hop with hop | hop
        · cases hurl : info.sprite_url with
          | none => simp only [hurl] at hop; simp at hop
          | some url =>
            simp only [hurl] at hop
            by_cases hok : env.spriteOk url = true
            · simp only [hok, if_true] at hop
              simp at hop
              rcases hop with hop | hop <;> subst hop <;> rfl
            · simp only [Bool.not_eq_true] at hok
              simp [hok] at hop
        · exact ih _ op hop

/-! ## Helper lemmas: thumbnail cache -/

theorem runCalls_cached (env : ThumbEnv) (id : Nat) (t : SpriteThumb) :
    ∀ (calls : List (Nat × Nat)) (cache : List (Nat × SpriteThumb))
      (h : List.lookup id cache = some t),
      runCalls env id cache calls
        = (calls.map fun p => (some (serveThumb env t p.1 p.2), 0), cache) := by
  intro calls
  induction calls with
  | nil => intro cache h; rfl
  | cons c rest ih =>
    intro cache h
    obtain ⟨w, h'⟩ := c
    simp only [runCalls, get_sprite_pixels, h]
    rw [ih cache h]
    simp

theorem lookup_cons_self (id : Nat) (t : SpriteThumb)
    (cache : List (Nat × SpriteThumb)) :
    List.lookup id ((id, t) :: cache) = some t := by
  simp [List.lookup]

/-! ## Claims -/

/-- **C1** (the claim fails on the code): on every run of `fetch_and_cache`
that returns a record set, the cache write at the end is a direct in-place
write of `data/pokemon.json` (`std::fs::write(cache_path, sv)`), and the
filesystem trace contains no rename of a temporary file — contradicting
the claimed write-temp-then-rename scheme. -/
theorem c1_cache_written_in_place (limit : Nat) (env : Env) (rs : List Pokemon)
    (hok : (fetch_and_cache limit env).result = .ok rs) :
    FsOp.writeCache cachePath rs ∈ (fetch_and_cache limit env).fsOps
      ∧ ∀ op ∈ (fetch_and_cache limit env).fsOps, op.isRename = false := by
  cases hc : env.cache with
  | records v =>
    by_cases hlen : limit ≤ v.length
    · rw [fetch_and_cache_backfill limit env v hc hlen] at hok ⊢
      have hrs : ((backfillLoop env env.files 0 v).1).map (·.1) = rs := by
        simp only [backfillPath] at hok
        exact (FetchResult.ok.injEq _ _).mp hok
      constructor
      · simp only [backfillPath, hrs]
        exact List.mem_append_right _ (by simp)
      · intro op hop
        simp only [backfillPath, List.mem_append] at hop
        rcases hop with hop | hop
        · exact backfillLoop_fs_no_rename env v env.files 0 op hop
        · simp at hop; subst hop; rfl
    · have hcu : cacheUsable env limit = false := by
        simp [cacheUsable, hc]; omega
      rw [fetch_and_cache_full limit env hcu] at hok ⊢
      cases hl : env.listResp with
      | sendErr => simp [fullPath, hl] at hok
      | decodeErr => simp [fullPath, hl] at hok
      | noResults => simp [fullPath, hl] at hok
      | ok entries =>
        cases hfl : (fullLoop env entries []).1 with
        | error => simp [fullPath, hl, hfl] at hok
        | ok poks =>
          have hrs : poks = rs := by
            simp only [fullPath, hl, hfl] at hok
            exact (FetchResult.ok.injEq _ _).mp hok
          constructor
          · simp only [fullPath, hl, hfl, hrs]
            exact List.mem_append_right _ (by simp)
          · intro op hop
            simp only [fullPath, hl, hfl, List.mem_append] at hop
            rcases hop with hop | hop
            · exact fullLoop_fs_no_rename env entries [] op hop
            · simp at hop
              rcases hop with hop | hop <;> subst hop <;> rfl
  | missing =>
    have hcu : cacheUsable env limit = false := by simp [cacheUsable, hc]
    rw [fetch_and_cache_full limit env hcu] at hok ⊢
    cases hl : env.listResp with
    | sendErr => simp [fullPath, hl] at hok
    | decodeErr => simp [fullPath, hl] at hok
    | noResults => simp [fullPath, hl] at hok
    | ok entries =>
      cases hfl : (fullLoop env entries []).1 with
      | error => simp [fullPath, hl, hfl] at hok
      | ok poks =>
        have hrs : poks = rs := by
          simp only [fullPath, hl, hfl] at hok
          exact (FetchResult.ok.injEq _ _).mp hok
        constructor
        · simp only [fullPath, hl, hfl, hrs]
          exact List.mem_append_right _ (by simp)
        · intro op hop
          simp only [fullPath, hl, hfl, List.mem_append] at hop
          rcases hop with hop | hop
          · exact fullLoop_fs_no_rename env entries [] op hop
          · simp at hop
            rcases hop with hop | hop <;> subst hop <;> rfl
  | unparsable =>
    have hcu : cacheUsable env limit = false := by simp [cacheUsable, hc]
    rw [fetch_and_cache_full limit env hcu] at hok ⊢
    cases hl : env.listResp with
    | sendErr => simp [fullPath, hl] at hok
    | decodeErr => simp [fullPath, hl] at hok
    | noResults => simp [fullPath, hl] at hok
    | ok entries =>
      cases hfl : (fullLoop env entries []).1 with
      | error => simp [fullPath, hl, hfl] at hok
      | ok poks =>
        have hrs : poks = rs := by
          simp only [fullPath, hl, hfl] at hok
          exact (FetchResult.ok.injEq _ _).mp hok
        constructor
        · simp only [fullPath, hl, hfl, hrs]
          exact List.mem_append_right _ (by simp)
        · intro op hop
          simp only [fullPath, hl, hfl, List.mem_append] at hop
          rcases hop with hop | hop
          · exact fullLoop_fs_no_rename env entries [] op hop
          · simp at hop
            rcases hop with hop | hop <;> subst hop <;> rfl

/-- Witness for C1: a concrete backfill run over a complete one-record
cache returns the cache and its trace contains the direct in-place write
of `data/pokemon.json`. -/
theorem c1_witness :
    (fetch_and_cache 1 envCacheComplete).result = FetchResult.ok [pokeComplete]
      ∧ FsOp.writeCache cachePath [pokeComplete]
          ∈ (fetch_and_cache 1 envCacheComplete).fsOps :=
  ⟨by decide,
   (c1_cache_written_in_place 1 envCacheComplete [pokeComplete] (by decide)).1⟩

/-- **C2** counterexample: a run where the enumeration request succeeds
(with one name) but the per-record body decoding for that name fails
returns an error — refuting "for every input where the list request
succeeds, `fetch_and_cache` returns Ok regardless of per-record request
or body-decoding failures". -/
theorem c2_cex :
    envDecodeFail.listResp = ListResp.ok [some "abra"]
      ∧ (fetch_and_cache 1 envDecodeFail).result = FetchResult.error := by
  constructor
  · rfl
  · decide

/-- **C2** (amended): in the full-fetch path, when no per-record *body
decoding* fails, a failed per-record *send* only skips that name (no
record is appended for it) and the run returns Ok with exactly the
records of the successfully fetched names, in enumeration order. -/
theorem c2_send_failures_skipped (limit : Nat) (env : Env)
    (entries : List (Option String))
    (hcu : cacheUsable env limit = false)
    (hl : env.listResp = .ok entries)
    (hnd : noDecodeErr env entries) :
    (fetch_and_cache limit env).result = .ok (fullResults env entries) := by
  rw [fetch_and_cache_full limit env hcu]
  have hfl := fullLoop_ok env entries [] hnd
  rw [List.nil_append] at hfl
  simp [fullPath, hl, hfl]

/-- Witness for C2: two enumerated names, the first one's request fails to
send, the second succeeds; the run returns Ok with only the second name's
record. -/
theorem c2_witness :
    (fetch_and_cache 2 envOneFailing).result
      = .ok (fullResults envOneFailing [some "abra", some "beedrill"]) :=
  c2_send_failures_skipped 2 envOneFailing [some "abra", some "beedrill"]
    (by decide) rfl (by unfold noDecodeErr namesOf; decide)

/-- **C3** counterexample: pressing `'r'` while the startup background
fetch is still in flight leaves two `fetch_and_cache` tasks running —
refuting "at most one fetch_and_cache operation is ever active at a
time". -/
theorem c3_cex : ¬ (runUi [UiEvent.key (Key.char 'r')]).inFlight ≤ 1 := by
  decide

/-- **C3** (amended): outside search mode, the `'r'` branch of the event
loop spawns a new background fetch unconditionally — the number of
in-flight fetches always grows by one, with no single-flight guard. -/
theorem c3_r_spawns_unconditionally (s : LoopState)
    (h : s.search_mode = false) :
    (uiStep s (UiEvent.key (Key.char 'r'))).inFlight = s.inFlight + 1 := by
  simp [uiStep, h]

/-- Witness for C3: pressing `'r'` in the initial loop state (one startup
fetch already in flight) spawns a second fetch. -/
theorem c3_witness :
    (uiStep initLoopState (UiEvent.key (Key.char 'r'))).inFlight
      = initLoopState.inFlight + 1 :=
  c3_r_spawns_unconditionally initLoopState rfl

/-- **C4** counterexample: with `limit = 0` and a parsable one-record cache
on disk, `fetch_and_cache` takes the backfill path — it returns the whole
(non-empty) cache and issues a network request for the incomplete record,
refuting "returns an empty RecordSet and performs no network requests,
regardless of whether a cache file exists". -/
theorem c4_cex :
    (fetch_and_cache 0 envCachePartial).result ≠ FetchResult.ok []
      ∧ (fetch_and_cache 0 envCachePartial).reqs ≠ [] := by
  decide

/-- **C4** (amended): with `limit = 0` and *no usable cache*, the
enumeration request is still issued (one network request); when the
service then enumerates no names the run returns an empty record set. -/
theorem c4_limit_zero (env : Env)
    (hcu : cacheUsable env 0 = false)
    (hl : env.listResp = .ok []) :
    (fetch_and_cache 0 env).result = .ok []
      ∧ (fetch_and_cache 0 env).reqs = [Request.list 0] := by
  rw [fetch_and_cache_full 0 env hcu]
  simp [fullPath, hl, fullLoop]

/-- Witness for C4: the concrete no-cache environment with an empty
enumeration. -/
theorem c4_witness :
    (fetch_and_cache 0 envEmptyList).result = .ok []
      ∧ (fetch_and_cache 0 envEmptyList).reqs = [Request.list 0] :=
  c4_limit_zero envEmptyList (by decide) rfl

/-- **C7** counterexample: a record whose sprite file exists and whose
traits, attributes, size, mass and base score are all non-empty/non-zero,
but whose `sprite` reference is unset, is judged *incomplete* by the code
although none of the claim's listed conditions holds. -/
theorem c7_cex :
    completeness [5] pokeNoSpriteRef = false
      ∧ claimIncomplete [5] pokeNoSpriteRef = false := by
  decide

/-- **C7** (amended): the completeness predicate is false iff the sprite
reference is unset **or** one of the claim's listed conditions holds
(missing sprite file, empty trait list, empty attributes, or zero
size/mass/base score) — and no other condition makes it false. -/
theorem c7_completeness_characterization (files : List Nat) (p : Pokemon) :
    completeness files p = false
      ↔ (p.sprite.isNone = true ∨ claimIncomplete files p = true) := by
  have h : isIncomplete files p = (p.sprite.isNone || claimIncomplete files p) := by
    unfold isIncomplete claimIncomplete
    simp [Bool.or_assoc]
  have hc : completeness files p = !(p.sprite.isNone || claimIncomplete files p) := by
    unfold completeness
    rw [h]
  rw [hc]
  cases hs : p.sprite.isNone <;> cases hcl : claimIncomplete files p <;> simp [hs, hcl]

/-! ## Helper lemmas: whole-path progress traces -/

theorem fetch_and_cache_cases (limit : Nat) (env : Env) :
    (∃ v, env.cache = .records v ∧ limit ≤ v.length
        ∧ fetch_and_cache limit env = backfillPath env v)
      ∨ fetch_and_cache limit env = fullPath limit env := by
  cases hc : env.cache with
  | records v =>
    by_cases hlen : limit ≤ v.length
    · exact Or.inl ⟨v, rfl, hlen, fetch_and_cache_backfill limit env v hc hlen⟩
    · refine Or.inr (fetch_and_cache_full limit env ?_)
      simp [cacheUsable, hc]; omega
  | missing => exact Or.inr (fetch_and_cache_full limit env (by simp [cacheUsable, hc]))
  | unparsable => exact Or.inr (fetch_and_cache_full limit env (by simp [cacheUsable, hc]))

theorem backfillPath_evs (env : Env) (v : List Pokemon) :
    (backfillPath env v).evs
      = ProgressEv.start v.length
          :: (consecEvs 0 v.length ++ [ProgressEv.finish]) := by
  simp [backfillPath, backfillLoop_evs]

theorem backfillPath_result (env : Env) (v : List Pokemon) :
    ∃ v', (backfillPath env v).result = .ok v' ∧ v'.length = v.length :=
  ⟨_, rfl, by simp [backfillLoop_length]⟩

theorem backfillPath_final (env : Env) (v : List Pokemon) :
    runEvs (backfillPath env v).evs = ⟨false, v.length, v.length⟩ := by
  rw [backfillPath_evs]
  unfold runEvs
  rw [List.foldl_cons, List.foldl_append, foldl_consecEvs]
  by_cases hv : v.length = 0 <;> simp [hv, applyEv]

theorem fullPath_ok_spec (limit : Nat) (env : Env)
    (entries : List (Option String)) (poks : List Pokemon)
    (hl : env.listResp = .ok entries)
    (hfl : (fullLoop env entries []).1 = .ok poks) :
    ∃ m, m ≤ entries.length ∧ poks.length = m
      ∧ (fullPath limit env).evs
          = ProgressEv.start limit
              :: (consecEvs 0 m ++ [ProgressEv.finishFull poks.length]) := by
  obtain ⟨m, hm, hevs, hlen⟩ := fullLoop_evs_shape env entries []
  have hplen : poks.length = m := by simpa using hlen poks hfl
  exact ⟨m, hm, hplen, by simp [fullPath, hl, hfl, hevs]⟩

theorem runEvs_end_finishFull (e₀ : ProgressEv) (l : List ProgressEv) (n : Nat) :
    runEvs (e₀ :: (l ++ [ProgressEv.finishFull n])) = ⟨false, n, n⟩ := by
  unfold runEvs
  rw [List.foldl_cons, List.foldl_append]
  rfl

theorem chain_with_start (t : Nat) (rest : List ProgressEv)
    (h : List.Chain' (· ≤ ·)
        ((statesFrom ⟨true, 0, t⟩ rest).map (·.fetched))) :
    List.Chain' (· ≤ ·)
      ((statesFrom initFetchState (ProgressEv.start t :: rest)).map (·.fetched)) := by
  have hsf : statesFrom initFetchState (ProgressEv.start t :: rest)
      = initFetchState :: statesFrom ⟨true, 0, t⟩ rest := rfl
  rw [hsf, List.map_cons]
  obtain ⟨tl, htl⟩ := statesFrom_head rest (⟨true, 0, t⟩ : FetchState)
  rw [htl] at h ⊢
  rw [List.map_cons] at h ⊢
  exact List.chain'_cons.mpr ⟨by simp [initFetchState], h⟩

theorem bound_with_start (t : Nat) (rest : List ProgressEv)
    (h : ∀ s ∈ statesFrom ⟨true, 0, t⟩ rest, s.fetched ≤ s.total) :
    ∀ s ∈ statesFrom initFetchState (ProgressEv.start t :: rest),
      s.fetched ≤ s.total := by
  intro s hs
  have hsf : statesFrom initFetchState (ProgressEv.start t :: rest)
      = initFetchState :: statesFrom ⟨true, 0, t⟩ rest := rfl
  rw [hsf] at hs
  rcases List.mem_cons.mp hs with hs | hs
  · subst hs; exact Nat.le_refl 0
  · exact h s hs

/-- **C5** counterexample: a run whose enumeration request fails returns an
error with `in_progress` still `true` — refuting "`in_progress` ... is
false whenever `fetch_and_cache` has returned — including when it returns
an error". -/
theorem c5_cex :
    (fetch_and_cache 1 envListFail).result = FetchResult.error
      ∧ (runEvs (fetch_and_cache 1 envListFail).evs).in_progress = true := by
  decide

/-- **C5** (amended): `in_progress` is set true at the start of either
path, and on every run that returns a record set it is false on return
with `fetched == total == length of the returned RecordSet`; on error
returns, however, `in_progress` is left `true` (never reset). -/
theorem c5_in_progress_on_success (limit : Nat) (env : Env) (rs : List Pokemon)
    (hok : (fetch_and_cache limit env).result = .ok rs) :
    (∃ t, (fetch_and_cache limit env).evs.head? = some (ProgressEv.start t))
      ∧ (runEvs (fetch_and_cache limit env).evs).in_progress = false
      ∧ (runEvs (fetch_and_cache limit env).evs).fetched = rs.length
      ∧ (runEvs (fetch_and_cache limit env).evs).total = rs.length := by
  rcases fetch_and_cache_cases limit env with ⟨v, hc, hlen, heq⟩ | heq
  · rw [heq] at hok ⊢
    obtain ⟨v', hres, hvlen⟩ := backfillPath_result env v
    rw [hres] at hok
    have hrs : v' = rs := (FetchResult.ok.injEq _ _).mp hok
    have hlen' : rs.length = v.length := by rw [← hrs]; exact hvlen
    refine ⟨⟨v.length, by rw [backfillPath_evs]; rfl⟩, ?_, ?_, ?_⟩
    · rw [backfillPath_final]
    · rw [backfillPath_final, hlen']
    · rw [backfillPath_final, hlen']
  · rw [heq] at hok ⊢
    cases hl : env.listResp with
    | sendErr => simp [fullPath, hl] at hok
    | decodeErr => simp [fullPath, hl] at hok
    | noResults => simp [fullPath, hl] at hok
    | ok entries =>
      cases hfl : (fullLoop env entries []).1 with
      | error => simp [fullPath, hl, hfl] at hok
      | ok poks =>
        have hrs : poks = rs := by
          simp only [fullPath, hl, hfl] at hok
          exact (FetchResult.ok.injEq _ _).mp hok
        obtain ⟨m, hm, hplen, hevs⟩ := fullPath_ok_spec limit env entries poks hl hfl
        rw [hevs, runEvs_end_finishFull]
        exact ⟨⟨limit, rfl⟩, rfl, by rw [hrs], by rw [hrs]⟩

/-- Witness for C5: the concrete complete-cache backfill run ends with
`in_progress = false` and `fetched` equal to the result length. -/
theorem c5_witness :
    (runEvs (fetch_and_cache 1 envCacheComplete).evs).in_progress = false
      ∧ (runEvs (fetch_and_cache 1 envCacheComplete).evs).fetched
          = [pokeComplete].length :=
  ⟨(c5_in_progress_on_success 1 envCacheComplete [pokeComplete] (by decide)).2.1,
   (c5_in_progress_on_success 1 envCacheComplete [pokeComplete] (by decide)).2.2.1⟩

/-- **C6** counterexample: on a run whose enumeration request fails, the
final value of `fetched` (0) does not equal the operation's `total` (2) —
refuting "for every run ... the final value equals total". -/
theorem c6_cex :
    (runEvs (fetch_and_cache 2 envListFail).evs).fetched = 0
      ∧ (runEvs (fetch_and_cache 2 envListFail).evs).total = 2
      ∧ ¬ (runEvs (fetch_and_cache 2 envListFail).evs).fetched
            = (runEvs (fetch_and_cache 2 envListFail).evs).total := by
  decide

/-- **C6** (amended): on every run that returns a record set — with the
enumeration no longer than the requested limit, as the list request asks —
the sequence of values taken by `fetched` is non-decreasing, at every
point `fetched ≤ total` as currently set, and the final `fetched` equals
the final `total`, which equals the length of the returned record set. -/
theorem c6_progress_monotone (limit : Nat) (env : Env) (rs : List Pokemon)
    (hok : (fetch_and_cache limit env).result = .ok rs)
    (hlist : listLen env ≤ limit) :
    List.Chain' (· ≤ ·) (fetchedSeq (fetch_and_cache limit env).evs)
      ∧ (∀ s ∈ statesFrom initFetchState (fetch_and_cache limit env).evs,
          s.fetched ≤ s.total)
      ∧ (runEvs (fetch_and_cache limit env).evs).fetched
          = (runEvs (fetch_and_cache limit env).evs).total
      ∧ (runEvs (fetch_and_cache limit env).evs).total = rs.length := by
  rcases fetch_and_cache_cases limit env with ⟨v, hc, hlen, heq⟩ | heq
  · rw [heq] at hok ⊢
    obtain ⟨v', hres, hvlen⟩ := backfillPath_result env v
    rw [hres] at hok
    have hrs : v' = rs := (FetchResult.ok.injEq _ _).mp hok
    have hlen' : rs.length = v.length := by rw [← hrs]; exact hvlen
    refine ⟨?_, ?_, ?_, ?_⟩
    · rw [backfillPath_evs]
      exact chain_with_start v.length _
        (chain_consec_finish v.length 0 ⟨true, 0, v.length⟩ (by simp))
    · rw [backfillPath_evs]
      exact bound_with_start v.length _
        (bound_consec_finish v.length 0 ⟨true, 0, v.length⟩ (by simp) (by simp))
    · rw [backfillPath_final]
    · rw [backfillPath_final, hlen']
  · rw [heq] at hok ⊢
    cases hl : env.listResp with
    | sendErr => simp [fullPath, hl] at hok
    | decodeErr => simp [fullPath, hl] at hok
    | noResults => simp [fullPath, hl] at hok
    | ok entries =>
      cases hfl : (fullLoop env entries []).1 with
      | error => simp [fullPath, hl, hfl] at hok
      | ok poks =>
        have hrs : poks = rs := by
          simp only [fullPath, hl, hfl] at hok
          exact (FetchResult.ok.injEq _ _).mp hok
        obtain ⟨m, hm, hplen, hevs⟩ := fullPath_ok_spec limit env entries poks hl hfl
        have hml : m ≤ limit := by
          have : listLen env = entries.length := by simp [listLen, hl]
          omega
        refine ⟨?_, ?_, ?_, ?_⟩
        · rw [hevs]
          exact chain_with_start limit _
            (chain_consec_finishFull m 0 poks.length ⟨true, 0, limit⟩
              (by simp) (by simp) (by omega))
        · rw [hevs]
          exact bound_with_start limit _
            (bound_consec_finishFull m 0 poks.length ⟨true, 0, limit⟩
              (by simp) (by simpa using hml))
        · rw [hevs, runEvs_end_finishFull]
        · rw [hevs, runEvs_end_finishFull, hrs]

/-- Witness for C6: the concrete full-fetch run with one failing and one
succeeding name ends with `fetched = total =` the length of the returned
one-record set. -/
theorem c6_witness :
    (runEvs (fetch_and_cache 2 envOneFailing).evs).fetched
        = (runEvs (fetch_and_cache 2 envOneFailing).evs).total
      ∧ (runEvs (fetch_and_cache 2 envOneFailing).evs).total
          = (fullResults envOneFailing [some "abra", some "beedrill"]).length :=
  ⟨(c6_progress_monotone 2 envOneFailing
      (fullResults envOneFailing [some "abra", some "beedrill"])
      (by decide) (by decide)).2.2.1,
   (c6_progress_monotone 2 envOneFailing
      (fullResults envOneFailing [some "abra", some "beedrill"])
      (by decide) (by decide)).2.2.2⟩

/-- **C8**: in a backfill pass, every record satisfying the completeness
predicate before the pass is returned unchanged by its loop iteration —
no field rewritten, no filesystem write, no network request for it (only
its progress update) — and the resulting record set carries it through at
the same position. -/
theorem c8_backfill_frame (env : Env) (v : List Pokemon) (i : Nat)
    (hi : i < v.length)
    (hc : completeness env.files (v.get ⟨i, hi⟩) = true) :
    ((backfillLoop env env.files 0 v).1).get? i
        = some (v.get ⟨i, hi⟩, [ProgressEv.setFetched (i + 1)], [], [])
      ∧ ((backfillPath env v).result.recordsOf).get? i = some (v.get ⟨i, hi⟩) := by
  have h := backfillLoop_complete_untouched env v env.files env.files 0 i
    (filesSub_refl env.files) hi hc
  rw [show (0 : Nat) + i + 1 = i + 1 by omega] at h
  refine ⟨h, ?_⟩
  simp only [backfillPath, FetchResult.recordsOf]
  rw [List.get?_map, h]
  rfl

/-- Witness for C8: in the concrete complete-cache backfill, the complete
record's iteration returns it unchanged with no filesystem and no network
effect. -/
theorem c8_witness :
    ((backfillLoop envCacheComplete envCacheComplete.files 0 [pokeComplete]).1).get? 0
      = some (pokeComplete, [ProgressEv.setFetched 1], [], []) :=
  (c8_backfill_frame envCacheComplete [pokeComplete] 0 (by decide) (by decide)).1

/-- **C9**: for an id whose sprite file decodes successfully and that is
not yet cached, the first `get_sprite_pixels` call performs exactly one
disk decode and inserts the canonical 48x48 thumbnail; every subsequent
call for that id — at any requested size — performs zero disk decodes and
produces its result from the cached canonical thumbnail. -/
theorem c9_decode_once (env : ThumbEnv) (id : Nat) (img : Img)
    (w₀ h₀ : Nat) (rest : List (Nat × Nat)) (cache₀ : List (Nat × SpriteThumb))
    (hdisk : env.openImage id = some img)
    (hmiss : List.lookup id cache₀ = none) :
    runCalls env id cache₀ ((w₀, h₀) :: rest)
      = ((some (serveThumb env (canonicalThumb env img) w₀ h₀), 1)
            :: rest.map
                (fun p => (some (serveThumb env (canonicalThumb env img) p.1 p.2), 0)),
         (id, canonicalThumb env img) :: cache₀) := by
  simp only [runCalls, get_sprite_pixels, hmiss, hdisk]
  rw [runCalls_cached env id (canonicalThumb env img) rest _
    (lookup_cons_self id (canonicalThumb env img) cache₀)]

/-- Witness for C9: a concrete `get(5,48,48)` followed by `get(5,16,16)` —
one decode on the first call, zero on the second, both served from the
canonical cached thumbnail. -/
theorem c9_witness :
    runCalls thumbEnvW 5 [] ((48, 48) :: [(16, 16)])
      = ([(some (serveThumb thumbEnvW (canonicalThumb thumbEnvW [9, 9, 9]) 48 48), 1),
          (some (serveThumb thumbEnvW (canonicalThumb thumbEnvW [9, 9, 9]) 16 16), 0)],
         [(5, canonicalThumb thumbEnvW [9, 9, 9])]) :=
  c9_decode_once thumbEnvW 5 [9, 9, 9] 48 48 [(16, 16)] [] rfl rfl

/-- **C10**: the selection invariant — whenever `visible` is non-empty,
`selected_visible < visible.length` — is established by `App::new` and
preserved by `next`, `previous` and `apply_filter`, so the rendering
indexing `app.visible[app.selected_visible]` (guarded by non-emptiness)
is always in bounds. -/
theorem c10_selected_in_bounds (a : App) (all : List Pokemon) (h : a.inv) :
    (App.new all).inv ∧ (App.next a).inv ∧ (App.previous a).inv
      ∧ (App.apply_filter a).inv := by
  refine ⟨?_, ?_, ?_, ?_⟩
  · intro hne
    simp only [App.new] at hne ⊢
    have : 0 < all.length := by
      by_contra hz
      have : all.length = 0 := by omega
      simp [this] at hne
    simpa using this
  · unfold App.next
    by_cases he : a.visible.isEmpty
    · simp only [he, if_true]; exact h
    · have hnil : a.visible ≠ [] := by
        intro hnil; rw [hnil] at he; simp at he
      have hlen : 0 < a.visible.length := List.length_pos.mpr hnil
      simp only [he, if_false, Bool.false_eq_true]
      intro _
      exact Nat.mod_lt _ hlen
  · unfold App.previous
    by_cases he : a.visible.isEmpty
    · simp only [he, if_true]; exact h
    · have hnil : a.visible ≠ [] := by
        intro hnil; rw [hnil] at he; simp at he
      have hlen : 0 < a.visible.length := List.length_pos.mpr hnil
      by_cases hz : a.selected_visible = 0
      · simp only [he, hz, if_false, Bool.false_eq_true]
        simp only [Nat.zero_eq, beq_self_eq_true, if_true]
        intro _
        show a.visible.length - 1 < a.visible.length
        omega
      · have hz' : (a.selected_visible == 0) = false := by simpa using hz
        simp only [he, hz', if_false, Bool.false_eq_true]
        intro _
        show a.selected_visible - 1 < a.visible.length
        have := h hnil
        omega
  · unfold App.apply_filter App.inv
    dsimp only
    by_cases hq : a.search_query.toLower.isEmpty = true
    · rw [if_pos hq]
      intro hne
      split_ifs with h1 h2
      · exact List.length_pos.mpr hne
      · have := List.length_pos.mpr hne
        omega
      · have := List.length_pos.mpr hne
        omega
    · rw [if_neg hq]
      intro hne
      split_ifs with h1 h2
      · exact List.length_pos.mpr hne
      · have := List.length_pos.mpr hne
        omega
      · have := List.length_pos.mpr hne
        omega

/-- Witness for C10: a concrete one-record `App` satisfying the invariant;
all three operations preserve it (and `App::new` establishes it). -/
theorem c10_witness :
    (App.new [pokeComplete]).inv ∧ (App.next appW).inv ∧ (App.previous appW).inv
      ∧ (App.apply_filter appW).inv :=
  c10_selected_in_bounds appW [pokeComplete] (by intro hne; decide)
